import Mathlib

/-!
Verification of the session controller in
`src/core/inference/src/main/cpp/llama_jni.cpp` (the llama.cpp JNI wrapper).

Shallow embedding: byte strings are `List Nat` (byte values 1..255 as they
occur in a C string; a NUL byte cannot occur inside a `std::string` passed
through `c_str()`-based validation without terminating it, and token pieces
are treated as NUL-free).  Positions and sizes are `Int`, mirroring the C
`int` / `llama_pos` arithmetic of the source (values stay far from 2^31, so
overflow is not modelled).  C truncating integer division is `Int.tdiv`.
External llama.cpp primitives (sampler, tokenizer, vocabulary, decode
success) are oracles passed as function parameters; the controller logic
itself is translated line by line from the source.
-/

namespace UnDios

/-! ## UTF-8 validation, `is_valid_utf8` (llama_jni.cpp lines 93-110)

The C code classifies each lead byte to a sequence length `n` and then
requires `n - 1` continuation bytes (`(b & 0xC0) == 0x80`).  `need_cont b`
returns the number of continuation bytes demanded by lead byte `b`, or
`none` for a malformed lead byte.  `valid_from s k` scans `s` while `k`
continuation bytes are still owed, exactly as the C loop does (reaching the
terminator while continuation bytes are owed fails, because the check
`(*b & 0xC0) == 0x80` reads the NUL terminator and fails). -/

def need_cont (b : Nat) : Option Nat :=
  if b &&& 0x80 == 0x00 then some 0
  else if b &&& 0xE0 == 0xC0 then some 1
  else if b &&& 0xF0 == 0xE0 then some 2
  else if b &&& 0xF8 == 0xF0 then some 3
  else none

def valid_from : List Nat → Nat → Bool
  | [], 0 => true
  | [], _ + 1 => false
  | b :: rest, 0 =>
    match need_cont b with
    | none => false
    | some n => valid_from rest n
  | b :: rest, k + 1 => (b &&& 0xC0 == 0x80) && valid_from rest k

def is_valid_utf8 (s : List Nat) : Bool := valid_from s 0

/-! ## Trailing trim applied before surfacing the synchronous result
(llama_jni.cpp lines 276-285).

The C code, on an invalid buffer, pops trailing continuation bytes
(`(output.back() & 0xC0) == 0x80`) and then pops one byte with the high bit
set, if present.  `trim_back` performs exactly those pops on the reversed
byte list. -/

def trim_back : List Nat → List Nat
  | [] => []
  | b :: rest =>
    if b &&& 0xC0 == 0x80 then trim_back rest
    else if b &&& 0x80 != 0 then rest
    else b :: rest

def trim_utf8 (out : List Nat) : List Nat :=
  if is_valid_utf8 out then out else (trim_back out.reverse).reverse

/-! ## Context memory and `shift_context` (llama_jni.cpp lines 59-65)

The KV memory of sequence 0 is modelled as the list of positions it holds.
`llama_memory_seq_rm` / `llama_memory_seq_add` are external llama.cpp
primitives; their effect on the position set is the documented one the
source relies on (and the spec restates): `seq_rm mem p0 p1` drops the
positions in `[p0, p1)`, `seq_add mem p0 p1 delta` shifts the positions in
`[p0, p1)` by `delta`. -/

def llama_memory_seq_rm (mem : List Int) (p0 p1 : Int) : List Int :=
  mem.filter (fun p => !(decide (p0 ≤ p) && decide (p < p1)))

def llama_memory_seq_add (mem : List Int) (p0 p1 delta : Int) : List Int :=
  mem.map (fun p => if p0 ≤ p ∧ p < p1 then p + delta else p)

/-- The mutable context-window state touched by `shift_context`:
the KV memory positions, `g_current_pos` (the cursor) and `g_system_pos`
(the protected system boundary). -/
structure CtxState where
  mem : List Int
  g_current_pos : Int
  g_system_pos : Int
deriving Repr, DecidableEq

/-- `shift_context` (llama_jni.cpp lines 59-65):
`n_discard = (g_current_pos - g_system_pos) / 2` (C truncating division),
remove positions `[g_system_pos, g_system_pos + n_discard)`, shift
positions `[g_system_pos + n_discard, g_current_pos)` down by `n_discard`,
and decrease the cursor by `n_discard`.  `g_system_pos` is not written. -/
def shift_context (c : CtxState) : CtxState :=
  let n_discard := Int.tdiv (c.g_current_pos - c.g_system_pos) 2
  { mem := llama_memory_seq_add
      (llama_memory_seq_rm c.mem c.g_system_pos (c.g_system_pos + n_discard))
      (c.g_system_pos + n_discard) c.g_current_pos (-n_discard),
    g_current_pos := c.g_current_pos - n_discard,
    g_system_pos := c.g_system_pos }

/-! ## Batched prompt submission, `decode_batched` (llama_jni.cpp lines 67-91)

The C loop walks the token vector in strides of `g_batch_size`; for each
chunk it records the chunk offset `i`, the chunk size
`cur = min(tokens.size() - i, g_batch_size)`, decides whether to call
`shift_context` (`start + i + cur >= g_context_size - 4`), and builds the
batch entries `(tokens[i+j], start + i + j, {0}, want_logit)` with
`want_logit = logit_last && (i + j == tokens.size() - 1)`.  `ChunkRec`
records one iteration of that loop. -/

structure BatchEntry where
  token : Int
  pos : Int
  seq_id : Int
  logits : Bool
deriving Repr, DecidableEq

structure ChunkRec where
  i : Nat
  cur : Nat
  evict : Bool
  entries : List BatchEntry
deriving Repr, DecidableEq

/-- The entry built by `common_batch_add` for the token at absolute index
`p.1` (line 82): position `start + (i + j)`, sequence id 0, `want_logit`
exactly at absolute index `n - 1` when `logit_last` is set (line 81). -/
def flat_entry (start : Int) (n : Nat) (logit_last : Bool)
    (p : Nat × Int) : BatchEntry :=
  { token := p.2, pos := start + (p.1 : Int), seq_id := 0,
    logits := logit_last && decide (p.1 = n - 1) }

/-- One chunk's batch entries: tokens of `rem.take B`, where `rem` is the
token suffix starting at absolute index `i`. -/
def chunk_entries (start : Int) (n : Nat) (logit_last : Bool)
    (rem : List Int) (B : Nat) (i : Nat) : List BatchEntry :=
  ((rem.take B).enumFrom i).map (flat_entry start n logit_last)

/-- The chunk loop of `decode_batched` (lines 72-83), as the list of its
iterations.  `rem` is the token suffix from absolute index `i`; each step
consumes `B` tokens (the tail recursion receives `ts.drop (B - 1)`, which
equals `rem.drop B` whenever `B > 0`, the only case the source can reach
since `g_batch_size = 512`).  `fuel` is a structural-recursion bound on
`rem.length`; the caller passes `tokens.length`, which never runs out. -/
def decode_batched_go (ctx_size : Int) (B : Nat) (start : Int) (n : Nat)
    (logit_last : Bool) : Nat → List Int → Nat → List ChunkRec
  | 0, _, _ => []
  | _ + 1, [], _ => []
  | fuel + 1, t :: ts, i =>
    let cur := min (ts.length + 1) B
    { i := i, cur := cur,
      evict := decide ((start : Int) + (i : Int) + (cur : Int) ≥ ctx_size - 4),
      entries := chunk_entries start n logit_last (t :: ts) B i } ::
      decode_batched_go ctx_size B start n logit_last fuel (ts.drop (B - 1)) (i + B)

/-- The chunk trace of `decode_batched ctx batch tokens start logit_last`. -/
def decode_batched_chunks (ctx_size : Int) (B : Nat) (tokens : List Int)
    (start : Int) (logit_last : Bool) : List ChunkRec :=
  decode_batched_go ctx_size B start tokens.length logit_last
    tokens.length tokens 0

/-! ## Prompt truncation (llama_jni.cpp lines 239-243 and 319-320)

`max_prompt = g_context_size - maxTokens - 4`; if
`(int)tokens.size() > max_prompt` the vector is resized to `max_prompt`.
`vector::resize` takes a `size_t`; a negative `max_prompt` converts to an
astronomically large unsigned count, so the resize throws
(`std::length_error` / `std::bad_alloc`) and the uncaught exception aborts
the JNI call.  That abnormal outcome is modelled as `none`. -/

def truncate_prompt (tokens : List Int) (ctx_size maxTokens : Int) :
    Option (List Int) :=
  let max_prompt := ctx_size - maxTokens - 4
  if (tokens.length : Int) > max_prompt then
    if max_prompt < 0 then none
    else some (tokens.take max_prompt.toNat)
  else some tokens

/-! ## The generation loops (llama_jni.cpp lines 253-271 and 334-362)

External effects are oracles: `sample k` is the token drawn at iteration
`k`, `eog` the vocabulary's end-of-generation test, `piece` the token's
byte fragment, `decode_ok k` whether the single-token `llama_decode` at
iteration `k` succeeds, and (streaming only) `cancel j` whether the
consumer throws while receiving the `j`-th emitted chunk.
`gen_should_shift` is the eviction trigger of lines 254 and 335:
`g_current_pos >= g_context_size - 4`. -/

def gen_should_shift (cursor ctx_size : Int) : Bool :=
  decide (cursor ≥ ctx_size - 4)

/-- Oracles standing for the external llama.cpp primitives used by the
generation loops. -/
structure GenOracles where
  sample : Nat → Int
  eog : Int → Bool
  piece : Int → List Nat
  decode_ok : Nat → Bool

inductive StopReason where
  | budget
  | stopToken
  | decodeFailed
  | cancelled
deriving Repr, DecidableEq

/-- State of the synchronous loop: the context window plus the
accumulated `result` stream. -/
structure SyncState where
  ctx : CtxState
  result : List Nat
deriving Repr, DecidableEq

/-- One shift check + optional shift, as at lines 254 and 335. -/
def maybe_shift (ctx_size : Int) (c : CtxState) : CtxState :=
  if gen_should_shift c.g_current_pos ctx_size then shift_context c else c

/-- A successful single-token decode at the cursor: the KV memory gains the
cursor position and `g_current_pos` is incremented (lines 264-270). -/
def decode_one (c : CtxState) : CtxState :=
  { c with mem := c.mem ++ [c.g_current_pos],
           g_current_pos := c.g_current_pos + 1 }

/-- The synchronous generation loop (lines 253-271).  `fuel` is the number
of remaining iterations (`maxTokens - k`) and `k` the iteration counter. -/
def gen_loop_sync (ctx_size : Int) (g : GenOracles) :
    Nat → Nat → SyncState → SyncState × StopReason
  | 0, _, s => (s, .budget)
  | fuel + 1, k, s =>
    let c1 := maybe_shift ctx_size s.ctx
    let id := g.sample k
    if g.eog id then ({ ctx := c1, result := s.result }, .stopToken)
    else
      let res := s.result ++ g.piece id
      if g.decode_ok k then
        gen_loop_sync ctx_size g fuel (k + 1) { ctx := decode_one c1, result := res }
      else ({ ctx := c1, result := res }, .decodeFailed)

/-! ## Streaming loop (llama_jni.cpp lines 333-362)

`cached += piece; if (is_valid_utf8(cached)) { emit; cached.clear(); if
(exception) break; }` — factored here as `stream_push`, which returns the
new buffer and the chunk to emit, if any.  The loop also produces a trace
of externally visible events, in program order: a context shift, a chunk
delivery to the consumer, the consumer's cancellation signal, and each
`llama_decode` call on the single-token batch. -/

def stream_push (cached piece : List Nat) : List Nat × Option (List Nat) :=
  let buf := cached ++ piece
  if is_valid_utf8 buf then ([], some buf) else (buf, none)

inductive GenEvent where
  | shift
  | emit (chunk : List Nat)
  | cancel
  | decode (pos : Int)
deriving Repr, DecidableEq

structure StreamState where
  ctx : CtxState
  cached : List Nat
  emitted : List (List Nat)
deriving Repr, DecidableEq

/-- The streaming generation loop (lines 334-362).  `cancel j` tells
whether the Java callback throws while receiving the `j`-th chunk (0-based
over the chunks emitted in this run); the C code then clears the exception
and breaks — a clean stop. -/
def gen_loop_stream (ctx_size : Int) (g : GenOracles) (cancel : Nat → Bool) :
    Nat → Nat → StreamState → StreamState × StopReason × List GenEvent
  | 0, _, s => (s, .budget, [])
  | fuel + 1, k, s =>
    let ev0 : List GenEvent :=
      if gen_should_shift s.ctx.g_current_pos ctx_size then [.shift] else []
    let c1 := maybe_shift ctx_size s.ctx
    let id := g.sample k
    if g.eog id then ({ s with ctx := c1 }, .stopToken, ev0)
    else
      match stream_push s.cached (g.piece id) with
      | (buf, some chunk) =>
        let s1 : StreamState :=
          { ctx := c1, cached := buf, emitted := s.emitted ++ [chunk] }
        if cancel s.emitted.length then
          (s1, .cancelled, ev0 ++ [.emit chunk, .cancel])
        else if g.decode_ok k then
          let r := gen_loop_stream ctx_size g cancel fuel (k + 1)
            { s1 with ctx := decode_one c1 }
          (r.1, r.2.1, ev0 ++ [.emit chunk, .decode c1.g_current_pos] ++ r.2.2)
        else (s1, .decodeFailed, ev0 ++ [.emit chunk, .decode c1.g_current_pos])
      | (buf, none) =>
        let s1 : StreamState := { ctx := c1, cached := buf, emitted := s.emitted }
        if g.decode_ok k then
          let r := gen_loop_stream ctx_size g cancel fuel (k + 1)
            { s1 with ctx := decode_one c1 }
          (r.1, r.2.1, ev0 ++ [.decode c1.g_current_pos] ++ r.2.2)
        else (s1, .decodeFailed, ev0 ++ [.decode c1.g_current_pos])

/-! ## Global session state and the JNI entry points

`GlobalState` holds the session fields of the globals block (lines 23-40)
that the claims speak about: whether a model/context is loaded, the cursor
`g_current_pos`, the boundary `g_system_pos`, the chat history
`g_chat_msgs` (message contents opaque), and the KV memory positions. -/

structure GlobalState where
  loaded : Bool
  g_current_pos : Int
  g_system_pos : Int
  history : List String
  mem : List Int
deriving Repr, DecidableEq

/-- `reset_chat_state` with `clear_kv = true` (lines 45-51): clears the
history, zeroes both positions, and clears the context memory. -/
def reset_chat_state (st : GlobalState) : GlobalState :=
  { st with history := [], g_system_pos := 0, g_current_pos := 0, mem := [] }

inductive GenResult where
  | error (msg : String)
  | abort
  | ok (bytes : List Nat)
deriving Repr, DecidableEq

/-- The context state right after a successful prompt decode: the KV
memory holds positions `0 .. len-1` and `g_current_pos = len` (line 249).
(Mid-prompt `shift_context` calls are no-ops on cursor and memory because
`g_current_pos = g_system_pos = 0` until line 249.) -/
def after_prompt (len : Nat) : CtxState :=
  { mem := (List.range len).map (fun j => (j : Int)),
    g_current_pos := (len : Int), g_system_pos := 0 }

/-- `nativeGenerate` (lines 207-288).  `prompt_ok` abstracts the success
of `decode_batched` on the prompt; `.abort` models the uncaught resize
exception when `max_prompt` is negative (see `truncate_prompt`). -/
def nativeGenerate (st : GlobalState) (tokenizer : String → List Int)
    (prompt : String) (maxTokens ctx_size : Int) (g : GenOracles)
    (prompt_ok : Bool) : GlobalState × GenResult :=
  if !st.loaded then (st, .error "[Error: Model not loaded]")
  else
    let st1 := reset_chat_state st
    match truncate_prompt (tokenizer prompt) ctx_size maxTokens with
    | none => (st1, .abort)
    | some toks =>
      if !prompt_ok then (st1, .error "[Error: Failed to process prompt]")
      else
        let sf := (gen_loop_sync ctx_size g maxTokens.toNat 0
          { ctx := after_prompt toks.length, result := [] }).1
        ({ st1 with g_current_pos := sf.ctx.g_current_pos, mem := sf.ctx.mem },
          .ok (trim_utf8 sf.result))

/-- `nativeGenerateStream` (lines 291-363).  The JNI function returns
`void`; the caller-visible output is the sequence of chunks delivered to
the callback, so the result is that sequence (`none` models the abnormal
resize abort).  The local `cached` buffer is discarded at the end of the
loop and is not part of the output. -/
def nativeGenerateStream (st : GlobalState) (tokenizer : String → List Int)
    (prompt : String) (maxTokens ctx_size : Int) (g : GenOracles)
    (cancel : Nat → Bool) (prompt_ok : Bool) :
    GlobalState × Option (List (List Nat)) :=
  if !st.loaded then (st, some [])
  else
    let st1 := reset_chat_state st
    match truncate_prompt (tokenizer prompt) ctx_size maxTokens with
    | none => (st1, none)
    | some toks =>
      if !prompt_ok then (st1, some [])
      else
        let sf := (gen_loop_stream ctx_size g cancel maxTokens.toNat 0
          { ctx := after_prompt toks.length, cached := [], emitted := [] }).1
        ({ st1 with g_current_pos := sf.ctx.g_current_pos, mem := sf.ctx.mem },
          some sf.emitted)

/-- `nativeTokenize` (lines 366-384): with no context, returns an empty
token array; otherwise the external tokenizer's result.  No session field
is written on either path. -/
def nativeTokenize (st : GlobalState) (tokenizer : String → List Int)
    (text : String) : GlobalState × List Int :=
  if !st.loaded then (st, []) else (st, tokenizer text)

/-! ## Helper lemmas -/

theorem filter_map_eq_filterMap {α β : Type} (P : α → Bool) (f : α → β) :
    ∀ l : List α,
      (l.filter P).map f = l.filterMap fun a => if P a then some (f a) else none := by
  intro l
  induction l with
  | nil => simp
  | cons a t ih =>
    by_cases h : P a <;> simp [List.filter_cons, List.filterMap_cons, h, ih]

/-- The eviction amount of `shift_context`, for stating its contract. -/
def n_discard (c : CtxState) : Int :=
  Int.tdiv (c.g_current_pos - c.g_system_pos) 2

/-- The postcondition of `evict()` as the claim states it: the KV memory
loses exactly `[S, S+discard)`, positions in `[S+discard, C)` move down by
`discard`, everything else is untouched; the cursor becomes `C - discard`
which is still `≥ S`; the boundary is unchanged; and when `C = S` the call
is a no-op. -/
def evict_post (c : CtxState) : Prop :=
  (shift_context c).mem = c.mem.filterMap (fun p =>
      if c.g_system_pos ≤ p ∧ p < c.g_system_pos + n_discard c then none
      else if c.g_system_pos + n_discard c ≤ p ∧ p < c.g_current_pos then
        some (p - n_discard c)
      else some p)
  ∧ (shift_context c).g_current_pos = c.g_current_pos - n_discard c
  ∧ c.g_system_pos ≤ (shift_context c).g_current_pos
  ∧ (shift_context c).g_system_pos = c.g_system_pos
  ∧ (c.g_current_pos = c.g_system_pos → shift_context c = c)

theorem n_discard_nonneg (c : CtxState)
    (h : c.g_system_pos ≤ c.g_current_pos) :
    0 ≤ n_discard c ∧ n_discard c ≤ c.g_current_pos - c.g_system_pos := by
  unfold n_discard
  rw [Int.tdiv_eq_ediv (by omega) (by norm_num)]
  omega

theorem shift_context_mem (c : CtxState) :
    (shift_context c).mem = c.mem.filterMap (fun p =>
      if c.g_system_pos ≤ p ∧ p < c.g_system_pos + n_discard c then none
      else if c.g_system_pos + n_discard c ≤ p ∧ p < c.g_current_pos then
        some (p - n_discard c)
      else some p) := by
  obtain ⟨mem, C, S⟩ := c
  show (llama_memory_seq_add (llama_memory_seq_rm mem S (S + Int.tdiv (C - S) 2))
      (S + Int.tdiv (C - S) 2) C (-(Int.tdiv (C - S) 2))) = _
  unfold llama_memory_seq_rm llama_memory_seq_add n_discard
  rw [filter_map_eq_filterMap]
  apply List.filterMap_congr
  intro p _
  by_cases h1 : S ≤ p ∧ p < S + Int.tdiv (C - S) 2
  · simp [h1.1, h1.2]
  · have h1' : ¬(decide (S ≤ p) && decide (p < S + Int.tdiv (C - S) 2)) = true := by
      simpa [Bool.and_eq_true, decide_eq_true_iff] using h1
    simp only [h1', Bool.not_false, if_true, Bool.not_eq_true', Bool.and_eq_false_iff]
    by_cases h2 : S + Int.tdiv (C - S) 2 ≤ p ∧ p < C
    · simp only [h2, if_pos, h1, if_neg]
      simp [Int.sub_eq_add_neg]
    · simp [h1, h2]

/-- C1: `evict()` computes `discard = floor((cursor − systemBoundary)/2)`,
removes `[S, S+discard)`, shifts `[S+discard, C)` down by `discard`, sets
the cursor to `C − discard ≥ S`, leaves the boundary alone, and is a no-op
when `C = S`; for cursor 12 and boundary 2 the discard is 5 and the new
cursor is 7. -/
theorem C1_evict (c : CtxState) (h : c.g_system_pos ≤ c.g_current_pos) :
    evict_post c
    ∧ Int.tdiv (12 - 2) 2 = 5
    ∧ (∀ m : List Int, (shift_context ⟨m, 12, 2⟩).g_current_pos = 7
        ∧ (shift_context ⟨m, 12, 2⟩).g_system_pos = 2) := by
  have hd := n_discard_nonneg c h
  refine ⟨⟨shift_context_mem c, ?_, ?_, ?_, ?_⟩, by decide, ?_⟩
  · rfl
  · show c.g_system_pos ≤ c.g_current_pos - n_discard c
    omega
  · rfl
  · intro hCS
    have hd0 : n_discard c = 0 := by
      unfold n_discard; rw [hCS]; simp [Int.zero_tdiv]
    obtain ⟨mem, C, S⟩ := c
    have hCS' : C = S := hCS
    have hmem : (shift_context ⟨mem, C, S⟩).mem = mem := by
      rw [shift_context_mem]
      have : ∀ p ∈ mem, (if S ≤ p ∧ p < S + n_discard ⟨mem, C, S⟩ then none
          else if S + n_discard ⟨mem, C, S⟩ ≤ p ∧ p < C then
            some (p - n_discard ⟨mem, C, S⟩)
          else some p) = some p := by
        intro p _
        rw [hd0]
        by_cases h2 : S ≤ p ∧ p < S + 0
        · omega
        · by_cases h3 : S + 0 ≤ p ∧ p < C
          · simp [h2, h3]
          · simp [h2, h3]
      rw [List.filterMap_congr this]
      simp
    have hcur : (shift_context ⟨mem, C, S⟩).g_current_pos = C := by
      show C - n_discard ⟨mem, C, S⟩ = C
      rw [hd0]; ring
    have hsys : (shift_context ⟨mem, C, S⟩).g_system_pos = S := rfl
    cases' hsc : shift_context ⟨mem, C, S⟩ with m' c' s'
    rw [hsc] at hmem hcur hsys
    simp_all
  · intro m
    constructor
    · show (12 : Int) - Int.tdiv (12 - 2) 2 = 7
      decide
    · rfl

/-- Witness for `C1_evict` at `cursor = 12`, `boundary = 2`, memory
`[0, 3, 7, 11]`. -/
theorem C1_evict_witness :
    (2 : Int) ≤ 12 ∧
    (evict_post ⟨[0, 3, 7, 11], 12, 2⟩
      ∧ Int.tdiv (12 - 2) 2 = 5
      ∧ (∀ m : List Int, (shift_context ⟨m, 12, 2⟩).g_current_pos = 7
          ∧ (shift_context ⟨m, 12, 2⟩).g_system_pos = 2)) :=
  ⟨by decide, C1_evict ⟨[0, 3, 7, 11], 12, 2⟩ (by decide)⟩

/-- A concrete oracle bundle for witnesses: every sampled token is 1,
never end-of-generation, every piece is the byte `0x41` (ASCII `A`), and
every decode succeeds. -/
def oracle0 : GenOracles :=
  { sample := fun _ => 1, eog := fun _ => false,
    piece := fun _ => [0x41], decode_ok := fun _ => true }

theorem decode_batched_go_evict_flag (ctx_size : Int) (B : Nat) (start : Int)
    (n : Nat) (logit_last : Bool) :
    ∀ (fuel : Nat) (rem : List Int) (i : Nat),
      ∀ r ∈ decode_batched_go ctx_size B start n logit_last fuel rem i,
        r.evict = decide ((start : Int) + (r.i : Int) + (r.cur : Int) ≥ ctx_size - 4)
        ∧ r.entries.length = r.cur := by
  intro fuel
  induction fuel with
  | zero => intro rem i r hr; simp [decode_batched_go] at hr
  | succ fuel ih =>
    intro rem i r hr
    match rem with
    | [] => simp [decode_batched_go] at hr
    | t :: ts =>
      rw [decode_batched_go] at hr
      rcases List.mem_cons.mp hr with h | h
      · subst h
        refine ⟨rfl, ?_⟩
        simp only [chunk_entries, List.length_map, List.enumFrom_length,
          List.length_take, List.length_cons]
        omega
      · exact ih _ _ r h

/-- C3 (amended): before each prompt chunk, eviction is triggered iff
`cursor + pending ≥ capacity − 4` with the chunk-time cursor `start + i`
and `pending` the chunk's entry count; in the single-token generation
loops the trigger used before each batch (`gen_should_shift`, lines 254
and 335) is `cursor ≥ capacity − 4` — the pending token is not counted
there. -/
theorem C3_evict_trigger :
    (∀ (ctx_size : Int) (B : Nat) (tokens : List Int) (start : Int)
        (logit_last : Bool),
      ∀ r ∈ decode_batched_chunks ctx_size B tokens start logit_last,
        r.evict = decide ((start : Int) + (r.i : Int) + (r.cur : Int) ≥ ctx_size - 4)
        ∧ r.entries.length = r.cur)
    ∧ (∀ cursor ctx_size : Int,
        gen_should_shift cursor ctx_size = decide (cursor ≥ ctx_size - 4)) :=
  ⟨fun ctx_size B tokens start logit_last =>
    decode_batched_go_evict_flag ctx_size B start tokens.length logit_last
      tokens.length tokens 0,
   fun _ _ => rfl⟩

/-- C3 as stated is false for the generation loop: at capacity 16
(reserve 4) and cursor 11, the about-to-be-submitted single-token batch
has `cursor + pending = 12 ≥ 12`, so the claim requires eviction, but the
code's trigger `cursor ≥ capacity − 4` is `11 ≥ 12` — no eviction. -/
theorem C3_counterexample :
    ¬ (gen_should_shift 11 16 = true ↔ ((11 : Int) + 1 ≥ 16 - 4)) := by decide

/-- A chunk record of a concrete run, for the `C3_evict_trigger` witness:
the second chunk of a 10-token prompt at capacity 10, batch limit 4. -/
def c3_sample_chunk : ChunkRec :=
  (decode_batched_chunks 10 4 [1, 2, 3, 4, 5, 6, 7, 8, 9, 10] 0 true).getD 1
    ⟨0, 0, false, []⟩

theorem C3_evict_trigger_witness :
    c3_sample_chunk ∈ decode_batched_chunks 10 4 [1, 2, 3, 4, 5, 6, 7, 8, 9, 10] 0 true
    ∧ (c3_sample_chunk.evict
        = decide ((0 : Int) + (c3_sample_chunk.i : Int) + (c3_sample_chunk.cur : Int) ≥ 10 - 4)
      ∧ c3_sample_chunk.entries.length = c3_sample_chunk.cur) :=
  ⟨by decide,
   C3_evict_trigger.1 10 4 [1, 2, 3, 4, 5, 6, 7, 8, 9, 10] 0 true
     c3_sample_chunk (by decide)⟩

/-! ### C2: structure of the built batches -/

/-- The batches of a prompt submission, without the loop bookkeeping. -/
def decode_batched_entries (ctx_size : Int) (B : Nat) (tokens : List Int)
    (start : Int) (logit_last : Bool) : List (List BatchEntry) :=
  (decode_batched_chunks ctx_size B tokens start logit_last).map ChunkRec.entries

theorem ceil_div_step (L B : Nat) (hB : 0 < B) (hL : 0 < L) :
    (L + B - 1) / B = (L - B + B - 1) / B + 1 := by
  rcases le_or_lt L B with h | h
  · have h0 : L - B = 0 := by omega
    have h1 : L + B - 1 = (L - 1) + B := by omega
    rw [h0, h1, Nat.add_div_right _ hB, Nat.div_eq_of_lt (by omega),
      Nat.div_eq_of_lt (by omega)]
  · have h1 : L + B - 1 = ((L - B) + B - 1) + B := by omega
    rw [h1, Nat.add_div_right _ hB]

theorem decode_batched_go_length (ctx_size : Int) (B : Nat) (start : Int)
    (n : Nat) (logit_last : Bool) (hB : 0 < B) :
    ∀ (fuel : Nat) (rem : List Int) (i : Nat), rem.length ≤ fuel →
      (decode_batched_go ctx_size B start n logit_last fuel rem i).length
        = (rem.length + B - 1) / B := by
  intro fuel
  induction fuel with
  | zero =>
    intro rem i hle
    have : rem = [] := List.eq_nil_of_length_eq_zero (by omega)
    subst this
    simp [decode_batched_go, Nat.div_eq_of_lt (by omega : B - 1 < B)]
  | succ fuel ih =>
    intro rem i hle
    match rem with
    | [] => simp [decode_batched_go, Nat.div_eq_of_lt (by omega : B - 1 < B)]
    | t :: ts =>
      rw [decode_batched_go]
      simp only [List.length_cons]
      rw [ih (ts.drop (B - 1)) (i + B) (by simp only [List.length_drop]; simp only [List.length_cons] at hle; omega)]
      have hdl : (ts.drop (B - 1)).length = (ts.length + 1) - B := by
        simp [List.length_drop]; omega
      rw [hdl, ceil_div_step (ts.length + 1) B hB (by omega)]

theorem enumFrom_take_drop {α : Type} (l : List α) (B i : Nat) :
    l.enumFrom i = (l.take B).enumFrom i ++ (l.drop B).enumFrom (i + B) := by
  rcases le_or_lt l.length B with h | h
  · rw [List.drop_eq_nil_of_le h, List.take_of_length_le h]
    simp
  · conv_lhs => rw [← List.take_append_drop B l]
    rw [List.enumFrom_append]
    congr 2
    rw [List.length_take]
    omega

theorem decode_batched_go_join (ctx_size : Int) (B : Nat) (start : Int)
    (n : Nat) (logit_last : Bool) (hB : 0 < B) :
    ∀ (fuel : Nat) (rem : List Int) (i : Nat), rem.length ≤ fuel →
      ((decode_batched_go ctx_size B start n logit_last fuel rem i).map
          ChunkRec.entries).flatten
        = (rem.enumFrom i).map (flat_entry start n logit_last) := by
  intro fuel
  induction fuel with
  | zero =>
    intro rem i hle
    have : rem = [] := List.eq_nil_of_length_eq_zero (by omega)
    subst this
    simp [decode_batched_go]
  | succ fuel ih =>
    intro rem i hle
    match rem with
    | [] => simp [decode_batched_go]
    | t :: ts =>
      rw [decode_batched_go]
      simp only [List.map_cons, List.flatten_cons]
      rw [ih (ts.drop (B - 1)) (i + B) (by simp only [List.length_drop]; simp only [List.length_cons] at hle; omega)]
      have hdrop : ts.drop (B - 1) = (t :: ts).drop B := by
        cases B with
        | zero => omega
        | succ b => simp [List.drop_succ_cons]
      rw [hdrop, enumFrom_take_drop (t :: ts) B i, List.map_append]
      rfl

theorem decode_batched_go_cur_le (ctx_size : Int) (B : Nat) (start : Int)
    (n : Nat) (logit_last : Bool) :
    ∀ (fuel : Nat) (rem : List Int) (i : Nat),
      ∀ r ∈ decode_batched_go ctx_size B start n logit_last fuel rem i,
        r.cur ≤ B := by
  intro fuel
  induction fuel with
  | zero => intro rem i r hr; simp [decode_batched_go] at hr
  | succ fuel ih =>
    intro rem i r hr
    match rem with
    | [] => simp [decode_batched_go] at hr
    | t :: ts =>
      rw [decode_batched_go] at hr
      rcases List.mem_cons.mp hr with h | h
      · subst h; exact Nat.min_le_right _ _
      · exact ih _ _ r h

/-- The batch-structure contract of `decode_batched` in one statement:
exactly `⌈n / B⌉` batches, every batch at most `B` entries, the
concatenation of all entries being the tokens in order with positions
`start + index`, sequence id 0, and `want_logit` only at the very last
entry (and only when `logit_last` is requested). -/
def batching_spec (ctx_size : Int) (B : Nat) (tokens : List Int)
    (start : Int) (logit_last : Bool) : Prop :=
  (decode_batched_entries ctx_size B tokens start logit_last).length
      = tokens.length ⌈/⌉ B
  ∧ (∀ b ∈ decode_batched_entries ctx_size B tokens start logit_last,
      b.length ≤ B)
  ∧ (decode_batched_entries ctx_size B tokens start logit_last).flatten
      = (tokens.enumFrom 0).map (flat_entry start tokens.length logit_last)
  ∧ ((decode_batched_entries ctx_size B tokens start logit_last).flatten.map
      BatchEntry.token) = tokens
  ∧ ((decode_batched_entries ctx_size B tokens start logit_last).flatten.map
      BatchEntry.pos)
      = (List.range tokens.length).map (fun k : Nat => start + (k : Int))
  ∧ ((decode_batched_entries ctx_size B tokens start logit_last).flatten.map
      BatchEntry.logits)
      = (List.range tokens.length).map
          (fun k => logit_last && decide (k = tokens.length - 1))

/-- C2: batched prompt submission builds `⌈n / B⌉` batches of at most `B`
entries; concatenated in order they carry the original tokens with
consecutive positions `start + i` and sequence id 0, and only the final
entry of the final batch wants output (when requested). -/
theorem decode_batched_flat_map {G : Type} (ctx_size : Int) (B : Nat)
    (tokens : List Int) (start : Int) (logit_last : Bool) (hB : 0 < B)
    (f : BatchEntry → G) (g : Nat × Int → G)
    (hfg : ∀ p : Nat × Int, f (flat_entry start tokens.length logit_last p) = g p) :
    ((decode_batched_entries ctx_size B tokens start logit_last).flatten.map f)
      = (tokens.enumFrom 0).map g := by
  show ((decode_batched_go ctx_size B start tokens.length logit_last
      tokens.length tokens 0).map ChunkRec.entries).flatten.map f = _
  rw [decode_batched_go_join ctx_size B start tokens.length logit_last hB
    tokens.length tokens 0 le_rfl, List.map_map]
  exact List.map_congr_left (fun p _ => hfg p)

/-- C2: batched prompt submission builds `⌈n / B⌉` batches of at most `B`
entries; concatenated in order they carry the original tokens with
consecutive positions `start + i` and sequence id 0, and only the final
entry of the final batch wants output (when requested). -/
theorem C2_batching (ctx_size : Int) (B : Nat) (tokens : List Int)
    (start : Int) (logit_last : Bool) (hB : 0 < B) :
    batching_spec ctx_size B tokens start logit_last := by
  have hjoin := decode_batched_go_join ctx_size B start tokens.length
    logit_last hB tokens.length tokens 0 le_rfl
  refine ⟨?_, ?_, hjoin, ?_, ?_, ?_⟩
  · rw [Nat.ceilDiv_eq_add_pred_div]
    show ((decode_batched_go ctx_size B start tokens.length logit_last
        tokens.length tokens 0).map ChunkRec.entries).length = _
    rw [List.length_map]
    exact decode_batched_go_length ctx_size B start tokens.length logit_last hB
      tokens.length tokens 0 le_rfl
  · intro b hb
    rcases List.mem_map.mp hb with ⟨r, hr, hbe⟩
    have h2 := (decode_batched_go_evict_flag ctx_size B start tokens.length
      logit_last tokens.length tokens 0 r hr).2
    have h3 := decode_batched_go_cur_le ctx_size B start tokens.length
      logit_last tokens.length tokens 0 r hr
    subst hbe
    omega
  · rw [decode_batched_flat_map ctx_size B tokens start logit_last hB
      BatchEntry.token Prod.snd (fun p => rfl)]
    exact List.enumFrom_map_snd 0 tokens
  · rw [decode_batched_flat_map ctx_size B tokens start logit_last hB
      BatchEntry.pos ((fun k : Nat => start + (k : Int)) ∘ Prod.fst)
      (fun p => rfl)]
    rw [← List.map_map, List.enumFrom_map_fst, ← List.range_eq_range']
  · rw [decode_batched_flat_map ctx_size B tokens start logit_last hB
      BatchEntry.logits
      ((fun k : Nat => logit_last && decide (k = tokens.length - 1)) ∘ Prod.fst)
      (fun p => rfl)]
    rw [← List.map_map, List.enumFrom_map_fst, ← List.range_eq_range']

/-- Scenario A as witness: capacity 16, batch limit 4, 10-token prompt,
output requested. -/
theorem C2_batching_witness :
    0 < 4 ∧ batching_spec 16 4 [1, 2, 3, 4, 5, 6, 7, 8, 9, 10] 0 true :=
  ⟨by decide, C2_batching 16 4 [1, 2, 3, 4, 5, 6, 7, 8, 9, 10] 0 true (by decide)⟩

/-- C5: when the truncation bound `capacity − maxTokens − 4` is
non-negative, an overlong tokenized prompt is replaced by exactly its
prefix of that length (trailing tokens dropped), and a prompt at or below
the bound is submitted unchanged. -/
theorem C5_truncation (tokens : List Int) (ctx_size maxTokens : Int)
    (h : 0 ≤ ctx_size - maxTokens - 4) :
    ((tokens.length : Int) > ctx_size - maxTokens - 4 →
      truncate_prompt tokens ctx_size maxTokens
        = some (tokens.take (ctx_size - maxTokens - 4).toNat)
      ∧ (tokens.take (ctx_size - maxTokens - 4).toNat).length
          = (ctx_size - maxTokens - 4).toNat
      ∧ tokens.take (ctx_size - maxTokens - 4).toNat
          ++ tokens.drop (ctx_size - maxTokens - 4).toNat = tokens)
    ∧ ((tokens.length : Int) ≤ ctx_size - maxTokens - 4 →
      truncate_prompt tokens ctx_size maxTokens = some tokens) := by
  constructor
  · intro hlen
    refine ⟨?_, ?_, List.take_append_drop _ _⟩
    · simp only [truncate_prompt]
      rw [if_pos hlen, if_neg (by omega)]
    · rw [List.length_take]
      omega
  · intro hlen
    simp only [truncate_prompt]
    rw [if_neg (by omega)]

theorem C5_truncation_witness :
    (0 : Int) ≤ 10 - 2 - 4 ∧
    ((((([1, 2, 3, 4, 5, 6] : List Int)).length : Int) > 10 - 2 - 4 →
      truncate_prompt [1, 2, 3, 4, 5, 6] 10 2
        = some (([1, 2, 3, 4, 5, 6] : List Int).take ((10 - 2 - 4 : Int)).toNat)
      ∧ (([1, 2, 3, 4, 5, 6] : List Int).take ((10 - 2 - 4 : Int)).toNat).length
          = ((10 - 2 - 4 : Int)).toNat
      ∧ ([1, 2, 3, 4, 5, 6] : List Int).take ((10 - 2 - 4 : Int)).toNat
          ++ ([1, 2, 3, 4, 5, 6] : List Int).drop ((10 - 2 - 4 : Int)).toNat
          = [1, 2, 3, 4, 5, 6])
    ∧ ((((([1, 2, 3, 4, 5, 6] : List Int)).length : Int) ≤ 10 - 2 - 4 →
      truncate_prompt [1, 2, 3, 4, 5, 6] 10 2 = some [1, 2, 3, 4, 5, 6]))) :=
  ⟨by decide, C5_truncation [1, 2, 3, 4, 5, 6] 10 2 (by decide)⟩

/-! ### C4: UTF-8 trimming of the surfaced synchronous result -/

/-- A continuation byte, `(b & 0xC0) == 0x80`. -/
def is_cont (b : Nat) : Bool := b &&& 0xC0 == 0x80

theorem mask_absorb (b m k v : Nat) (hmk : m &&& k = k) (h : b &&& m = v) :
    b &&& k = v &&& k := by
  calc b &&& k = b &&& (m &&& k) := by rw [hmk]
    _ = (b &&& m) &&& k := (Nat.and_assoc b m k).symm
    _ = v &&& k := by rw [h]

/-- A multi-byte lead byte (one owing at least one continuation byte) is
itself neither a continuation byte nor high-bit-free. -/
theorem lead_byte_bits (b n : Nat) (h : need_cont b = some n) (hn : 1 ≤ n) :
    b &&& 0xC0 = 0xC0 ∧ b &&& 0x80 = 0x80 := by
  simp only [need_cont] at h
  split_ifs at h with h1 h2 h3 h4
  · exact absurd (Option.some.inj h) (by omega)
  · have hb := of_decide_eq_true h2
    have hb' : b &&& 0xE0 = 0xC0 := by simpa using hb
    constructor
    · have := mask_absorb b 0xE0 0xC0 0xC0 (by decide) hb'
      simpa using this
    · have := mask_absorb b 0xE0 0x80 0xC0 (by decide) hb'
      simpa using this
  · have hb := of_decide_eq_true h3
    have hb' : b &&& 0xF0 = 0xE0 := by simpa using hb
    constructor
    · have := mask_absorb b 0xF0 0xC0 0xE0 (by decide) hb'
      simpa using this
    · have := mask_absorb b 0xF0 0x80 0xE0 (by decide) hb'
      simpa using this
  · have hb := of_decide_eq_true h4
    have hb' : b &&& 0xF8 = 0xF0 := by simpa using hb
    constructor
    · have := mask_absorb b 0xF8 0xC0 0xF0 (by decide) hb'
      simpa using this
    · have := mask_absorb b 0xF8 0x80 0xF0 (by decide) hb'
      simpa using this

/-- Validity scanning composes over a valid left part. -/
theorem valid_from_append (v : List Nat) :
    ∀ (k : Nat), valid_from v k = true →
      ∀ u, valid_from (v ++ u) k = valid_from u 0 := by
  induction v with
  | nil =>
    intro k hk u
    cases k with
    | zero => simp
    | succ m => simp [valid_from] at hk
  | cons b rest ih =>
    intro k hk u
    cases k with
    | zero =>
      rw [List.cons_append]
      rw [valid_from] at hk ⊢
      cases hnc : need_cont b with
      | none => rw [hnc] at hk; simp at hk
      | some n =>
        rw [hnc] at hk
        exact ih n hk u
    | succ m =>
      rw [List.cons_append]
      rw [valid_from] at hk ⊢
      simp only [Bool.and_eq_true] at hk
      rcases hk with ⟨hc, hv⟩
      rw [hc, ih m hv u]
      simp

/-- A too-short run of continuation bytes never satisfies a pending
demand for more of them. -/
theorem valid_from_conts_false :
    ∀ (conts : List Nat) (n : Nat), conts.length < n →
      (∀ b ∈ conts, is_cont b = true) → valid_from conts n = false := by
  intro conts
  induction conts with
  | nil =>
    intro n hn _
    cases n with
    | zero => omega
    | succ m => simp [valid_from]
  | cons c cs ih =>
    intro n hn hc
    cases n with
    | zero => omega
    | succ m =>
      rw [valid_from]
      have h1 : is_cont c = true := hc c (by simp)
      have h2 := ih m (by simpa using hn) (fun b hb => hc b (by simp [hb]))
      simp only [is_cont] at h1
      rw [h1, h2]
      simp

/-- `trim_back` pops every leading continuation byte. -/
theorem trim_back_conts :
    ∀ (l rest : List Nat), (∀ b ∈ l, is_cont b = true) →
      trim_back (l ++ rest) = trim_back rest := by
  intro l
  induction l with
  | nil => intro rest _; rfl
  | cons c cs ih =>
    intro rest hc
    have h1 : is_cont c = true := hc c (by simp)
    simp only [is_cont] at h1
    rw [List.cons_append, trim_back, if_pos h1]
    exact ih rest (fun b hb => hc b (by simp [hb]))

/-- One incomplete trailing multi-byte text unit: a lead byte owing `n ≥ 1`
continuation bytes followed by fewer than `n` of them. -/
def incomplete_unit (u : List Nat) : Prop :=
  ∃ lead conts n, u = lead :: conts ∧ need_cont lead = some n
    ∧ conts.length < n ∧ ∀ b ∈ conts, is_cont b = true

/-- The oracle of the C4 counterexample: the first generated token's piece
is a lone two-byte lead `0xC3`, the second is ASCII `0x28`. -/
def c4_oracle : GenOracles :=
  { sample := fun k => (k : Int), eog := fun _ => false,
    piece := fun t => if t = 0 then [0xC3] else [0x28],
    decode_ok := fun _ => true }

/-- C4 as stated is false: a generation producing bytes `C3 28` (malformed
in the middle, not at the trailing edge) is surfaced unchanged by
`nativeGenerate` — the trim loop pops nothing because the last byte is
neither a continuation byte nor high-bit — so the caller receives a string
with a malformed lead/continuation sequence. -/
theorem C4_counterexample :
    (nativeGenerate ⟨true, 0, 0, [], []⟩ (fun _ => [1]) "p" 2 16 c4_oracle
        true).2 = .ok [0xC3, 0x28]
    ∧ is_valid_utf8 [0xC3, 0x28] = false := by decide

/-! ### C6: the stream buffer gates what is surfaced -/

theorem stream_push_spec (cached piece : List Nat) :
    (is_valid_utf8 (cached ++ piece) = true →
      stream_push cached piece = ([], some (cached ++ piece)))
    ∧ (is_valid_utf8 (cached ++ piece) = false →
      stream_push cached piece = (cached ++ piece, none)) := by
  constructor <;> intro h <;> simp [stream_push, h]

theorem stream_push_some (cached piece buf chunk : List Nat)
    (h : stream_push cached piece = (buf, some chunk)) :
    buf = [] ∧ chunk = cached ++ piece ∧ is_valid_utf8 chunk = true := by
  by_cases hval : is_valid_utf8 (cached ++ piece) = true
  · rw [(stream_push_spec cached piece).1 hval] at h
    injection h with h1 h2
    injection h2 with h2
    exact ⟨h1.symm, h2.symm, h2 ▸ hval⟩
  · have hval' : is_valid_utf8 (cached ++ piece) = false :=
      Bool.not_eq_true _ ▸ hval
    rw [(stream_push_spec cached piece).2 hval'] at h
    injection h with h1 h2
    cases h2

theorem stream_push_none (cached piece buf : List Nat)
    (h : stream_push cached piece = (buf, none)) :
    buf = cached ++ piece ∧ is_valid_utf8 (cached ++ piece) = false := by
  by_cases hval : is_valid_utf8 (cached ++ piece) = true
  · rw [(stream_push_spec cached piece).1 hval] at h
    injection h with h1 h2
    cases h2
  · have hval' : is_valid_utf8 (cached ++ piece) = false :=
      Bool.not_eq_true _ ▸ hval
    rw [(stream_push_spec cached piece).2 hval'] at h
    injection h with h1 h2
    exact ⟨h1.symm, hval'⟩

theorem gen_loop_stream_emitted_valid (ctx_size : Int) (g : GenOracles)
    (cancel : Nat → Bool) :
    ∀ (fuel k : Nat) (s : StreamState),
      (∀ c ∈ s.emitted, is_valid_utf8 c = true) →
      ∀ c ∈ (gen_loop_stream ctx_size g cancel fuel k s).1.emitted,
        is_valid_utf8 c = true := by
  intro fuel k s
  induction fuel, k, s using gen_loop_stream.induct ctx_size g cancel with
  | case1 k s =>
    intro hs
    rw [gen_loop_stream]
    exact hs
  | case2 fuel k s id heog =>
    intro hs
    simp only [gen_loop_stream, heog, if_true]
    exact hs
  | case3 fuel k s id heog buf chunk hsp hcan =>
    intro hs c hc
    simp only [gen_loop_stream, heog, hsp, hcan, if_true, if_false,
      Bool.false_eq_true, List.mem_append, List.mem_singleton] at hc
    rcases hc with hc | hc
    · exact hs c hc
    · subst hc
      exact (stream_push_some _ _ _ _ hsp).2.2
  | case4 fuel k s c1 id heog buf chunk hsp s1 hcan hdec ih =>
    intro hs c hc
    simp only [gen_loop_stream, heog, hsp, hcan, hdec, if_true, if_false,
      Bool.false_eq_true] at hc
    refine ih ?_ c hc
    intro c2 hc2
    simp only [List.mem_append, List.mem_singleton] at hc2
    rcases hc2 with hc2 | hc2
    · exact hs c2 hc2
    · subst hc2
      exact (stream_push_some _ _ _ _ hsp).2.2
  | case5 fuel k s id heog buf chunk hsp hcan hdec =>
    intro hs c hc
    simp only [gen_loop_stream, heog, hsp, hcan, hdec, if_true, if_false,
      Bool.false_eq_true, List.mem_append, List.mem_singleton] at hc
    rcases hc with hc | hc
    · exact hs c hc
    · subst hc
      exact (stream_push_some _ _ _ _ hsp).2.2
  | case6 fuel k s c1 id heog buf hsp s1 hdec ih =>
    intro hs c hc
    simp only [gen_loop_stream, heog, hsp, hdec, if_true, if_false,
      Bool.false_eq_true] at hc
    exact ih hs c hc
  | case7 fuel k s id heog buf hsp hdec =>
    intro hs c hc
    simp only [gen_loop_stream, heog, hsp, hdec, if_true, if_false,
      Bool.false_eq_true] at hc
    exact hs c hc

/-- Every chunk sequence the streaming entry point ever surfaces consists
of chunks that validate as whole unit sequences; the invalid residue left
in the local buffer is never among them. -/
theorem nativeGenerateStream_chunks_valid :
    ∀ (st : GlobalState) (tk : String → List Int) (p : String)
      (maxT ctx_size : Int) (g : GenOracles) (cancel : Nat → Bool)
      (pok : Bool) (chunks : List (List Nat)),
      (nativeGenerateStream st tk p maxT ctx_size g cancel pok).2
          = some chunks →
      ∀ c ∈ chunks, is_valid_utf8 c = true := by
  intro st tk p maxT ctx_size g cancel pok chunks hchunks c hc
  by_cases hld : st.loaded = true
  · simp only [nativeGenerateStream, hld, Bool.not_true, Bool.false_eq_true,
      if_false] at hchunks
    cases htr : truncate_prompt (tk p) ctx_size maxT with
    | none =>
      rw [htr] at hchunks
      simp at hchunks
    | some toks =>
      rw [htr] at hchunks
      by_cases hpok : pok = true
      · simp only [hpok, Bool.not_true, Bool.false_eq_true, if_false,
          Option.some.injEq] at hchunks
        subst hchunks
        exact gen_loop_stream_emitted_valid ctx_size g cancel maxT.toNat 0
          _ (by simp) c hc
      · simp only [Bool.not_eq_true] at hpok
        simp only [hpok, Bool.not_false, if_true, Option.some.injEq] at hchunks
        subst hchunks
        simp at hc
  · simp only [Bool.not_eq_true] at hld
    simp only [nativeGenerateStream, hld, Bool.not_false, if_true,
      Option.some.injEq] at hchunks
    subst hchunks
    simp at hc


/-- C4 (amended): every streamed chunk is surfaced only when the whole
accumulated buffer validates, so streamed chunks are always structurally
valid.  The synchronous result passes through the total trim `trim_utf8`
— no error is ever raised — which removes at most one incomplete trailing
multi-byte unit: a valid accumulated output is surfaced unchanged, and an
output that is a valid sequence followed by one incomplete trailing unit
is invalid as a whole, the incomplete unit is dropped, and the surfaced
remainder (the valid part) validates.  The guarantee stops there: on
outputs malformed elsewhere the trim does not iterate until the remainder
validates, and the surfaced string can still be invalid — see
`C4_counterexample`. -/
theorem C4_trim (v u : List Nat) (hv : is_valid_utf8 v = true)
    (hu : incomplete_unit u) :
    is_valid_utf8 (v ++ u) = false
    ∧ trim_utf8 (v ++ u) = v
    ∧ is_valid_utf8 (trim_utf8 (v ++ u)) = true
    ∧ (∀ w : List Nat, is_valid_utf8 w = true → trim_utf8 w = w)
    ∧ (∀ (st : GlobalState) (tk : String → List Int) (p : String)
        (maxT ctx_size : Int) (g : GenOracles) (cancel : Nat → Bool)
        (pok : Bool) (chunks : List (List Nat)),
        (nativeGenerateStream st tk p maxT ctx_size g cancel pok).2
            = some chunks →
        ∀ c ∈ chunks, is_valid_utf8 c = true) := by
  obtain ⟨lead, conts, n, hueq, hlead, hlen, hconts⟩ := hu
  have hn1 : 1 ≤ n := by omega
  have hbits := lead_byte_bits lead n hlead hn1
  have hinv : is_valid_utf8 (v ++ u) = false := by
    show valid_from (v ++ u) 0 = false
    rw [valid_from_append v 0 hv u, hueq, valid_from, hlead]
    exact valid_from_conts_false conts n hlen hconts
  have htrim : trim_utf8 (v ++ u) = v := by
    rw [trim_utf8, if_neg (by rw [hinv]; simp)]
    rw [hueq, List.reverse_append, List.reverse_cons, List.append_assoc]
    rw [trim_back_conts conts.reverse ([lead] ++ v.reverse)
      (fun b hb => hconts b (List.mem_reverse.mp hb))]
    rw [List.singleton_append, trim_back]
    rw [if_neg ?hc, if_pos ?hh]
    case hc =>
      rw [hbits.1]
      decide
    case hh =>
      rw [hbits.2]
      decide
    exact List.reverse_reverse v
  refine ⟨hinv, htrim, ?_, ?_, nativeGenerateStream_chunks_valid⟩
  · rw [htrim]; exact hv
  · intro w hw
    rw [trim_utf8, if_pos hw]

/-- Witness for `C4_trim`: valid text `A` followed by the first two bytes
of a three-byte unit. -/
theorem C4_trim_witness :
    is_valid_utf8 [0x41] = true ∧ incomplete_unit [0xE2, 0x82]
    ∧ (is_valid_utf8 ([0x41] ++ [0xE2, 0x82]) = false
      ∧ trim_utf8 ([0x41] ++ [0xE2, 0x82]) = [0x41]
      ∧ is_valid_utf8 (trim_utf8 ([0x41] ++ [0xE2, 0x82])) = true
      ∧ (∀ w : List Nat, is_valid_utf8 w = true → trim_utf8 w = w)
      ∧ (∀ (st : GlobalState) (tk : String → List Int) (p : String)
          (maxT ctx_size : Int) (g : GenOracles) (cancel : Nat → Bool)
          (pok : Bool) (chunks : List (List Nat)),
          (nativeGenerateStream st tk p maxT ctx_size g cancel pok).2
              = some chunks →
          ∀ c ∈ chunks, is_valid_utf8 c = true)) :=
  ⟨by decide, ⟨0xE2, [0x82], 2, rfl, by decide, by decide, by decide⟩,
   C4_trim [0x41] [0xE2, 0x82] (by decide)
     ⟨0xE2, [0x82], 2, rfl, by decide, by decide, by decide⟩⟩

/-- C6 (as the claim states it): the buffer is surfaced only when it
validates as a whole, at which point it is cleared; otherwise the
accumulated bytes persist unchanged (with the piece appended) into the
next step; and every chunk the streaming entry point ever surfaces is a
complete valid unit sequence — the final undecodable residue in the local
buffer is never among the surfaced chunks. -/
theorem C6_stream_buffer :
    (∀ cached piece : List Nat,
      (is_valid_utf8 (cached ++ piece) = true →
        stream_push cached piece = ([], some (cached ++ piece)))
      ∧ (is_valid_utf8 (cached ++ piece) = false →
        stream_push cached piece = (cached ++ piece, none)))
    ∧ (∀ (ctx_size : Int) (g : GenOracles) (cancel : Nat → Bool)
        (fuel k : Nat) (s : StreamState),
        (∀ c ∈ s.emitted, is_valid_utf8 c = true) →
        ∀ c ∈ (gen_loop_stream ctx_size g cancel fuel k s).1.emitted,
          is_valid_utf8 c = true)
    ∧ (∀ (st : GlobalState) (tk : String → List Int) (p : String)
        (maxT ctx_size : Int) (g : GenOracles) (cancel : Nat → Bool)
        (pok : Bool) (chunks : List (List Nat)),
        (nativeGenerateStream st tk p maxT ctx_size g cancel pok).2
            = some chunks →
        ∀ c ∈ chunks, is_valid_utf8 c = true) := by
  exact ⟨stream_push_spec, gen_loop_stream_emitted_valid,
    nativeGenerateStream_chunks_valid⟩

/-- The oracle of the C6 witness: the first token's piece is the lead byte
`0xC3`, the second the continuation `0xA9`, so the buffer must persist
across one step and then surface the two-byte unit whole. -/
def c6_oracle : GenOracles :=
  { sample := fun k => (k : Int), eog := fun _ => false,
    piece := fun t => if t = 0 then [0xC3] else [0xA9],
    decode_ok := fun _ => true }

theorem C6_stream_buffer_witness : is_valid_utf8 [0xC3, 0xA9] = true :=
  C6_stream_buffer.2.2 ⟨true, 0, 0, [], []⟩ (fun _ => [1]) "p" 2 16 c6_oracle
    (fun _ => false) true [[0xC3, 0xA9]] (by decide) [0xC3, 0xA9] (by decide)

/-! ### C7: consumer cancellation stops the loop before any further batch -/

theorem cancel_not_mem_shift_events (b : Bool) :
    GenEvent.cancel ∉ (if b = true then [GenEvent.shift] else []) := by
  cases b <;> simp

/-- In every streaming run, the cancellation event, if the run ends
cancelled, is the very last event of the trace; and a run that does not
end cancelled has no cancellation event at all. -/
theorem gen_loop_stream_cancel_shape (ctx_size : Int) (g : GenOracles)
    (cancel : Nat → Bool) :
    ∀ (fuel k : Nat) (s : StreamState),
      ((gen_loop_stream ctx_size g cancel fuel k s).2.1 = .cancelled →
        ∃ pre, (gen_loop_stream ctx_size g cancel fuel k s).2.2
            = pre ++ [GenEvent.cancel] ∧ GenEvent.cancel ∉ pre)
      ∧ ((gen_loop_stream ctx_size g cancel fuel k s).2.1 ≠ .cancelled →
        GenEvent.cancel ∉ (gen_loop_stream ctx_size g cancel fuel k s).2.2) := by
  intro fuel k s
  induction fuel, k, s using gen_loop_stream.induct ctx_size g cancel with
  | case1 k s =>
    rw [gen_loop_stream]
    constructor
    · intro h
      cases h
    · intro _
      simp
  | case2 fuel k s id heog =>
    simp only [gen_loop_stream, heog, if_true]
    constructor
    · intro h
      cases h
    · intro _
      exact cancel_not_mem_shift_events _
  | case3 fuel k s id heog buf chunk hsp hcan =>
    simp only [gen_loop_stream, heog, hsp, hcan, if_true, if_false,
      Bool.false_eq_true]
    constructor
    · intro _
      refine ⟨(if gen_should_shift s.ctx.g_current_pos ctx_size = true then
          [GenEvent.shift] else []) ++ [GenEvent.emit chunk], ?_, ?_⟩
      · simp
      · simp only [List.mem_append, List.mem_singleton]
        rintro (h | h)
        · exact cancel_not_mem_shift_events _ h
        · cases h
    · intro h
      exact absurd rfl h
  | case4 fuel k s c1 id heog buf chunk hsp s1 hcan hdec ih =>
    simp only [gen_loop_stream, heog, hsp, hcan, hdec, if_true, if_false,
      Bool.false_eq_true]
    constructor
    · intro hr
      obtain ⟨pre, hpre, hnp⟩ := ih.1 hr
      refine ⟨((if gen_should_shift s.ctx.g_current_pos ctx_size = true then
          [GenEvent.shift] else []) ++
          [GenEvent.emit chunk, GenEvent.decode c1.g_current_pos]) ++ pre,
          ?_, ?_⟩
      · rw [hpre]
        simp
      · simp only [List.mem_append, List.mem_singleton, List.mem_cons]
        rintro ((h | h) | h)
        · exact cancel_not_mem_shift_events _ h
        · rcases h with h | h
          · cases h
          · simp at h
        · exact hnp h
    · intro hr
      have hni := ih.2 hr
      simp only [List.mem_append, List.mem_singleton, List.mem_cons]
      rintro ((h | h) | h)
      · exact cancel_not_mem_shift_events _ h
      · rcases h with h | h
        · cases h
        · simp at h
      · exact hni h
  | case5 fuel k s id heog buf chunk hsp hcan hdec =>
    simp only [gen_loop_stream, heog, hsp, hcan, hdec, if_true, if_false,
      Bool.false_eq_true]
    constructor
    · intro h
      cases h
    · intro _
      simp only [List.mem_append, List.mem_singleton, List.mem_cons]
      rintro (h | h)
      · exact cancel_not_mem_shift_events _ h
      · rcases h with h | h
        · cases h
        · simp at h
  | case6 fuel k s c1 id heog buf hsp s1 hdec ih =>
    simp only [gen_loop_stream, heog, hsp, hdec, if_true, if_false,
      Bool.false_eq_true]
    constructor
    · intro hr
      obtain ⟨pre, hpre, hnp⟩ := ih.1 hr
      refine ⟨((if gen_should_shift s.ctx.g_current_pos ctx_size = true then
          [GenEvent.shift] else []) ++ [GenEvent.decode c1.g_current_pos])
          ++ pre, ?_, ?_⟩
      · rw [hpre]
        simp
      · simp only [List.mem_append, List.mem_singleton]
        rintro ((h | h) | h)
        · exact cancel_not_mem_shift_events _ h
        · cases h
        · exact hnp h
    · intro hr
      have hni := ih.2 hr
      simp only [List.mem_append, List.mem_singleton]
      rintro ((h | h) | h)
      · exact cancel_not_mem_shift_events _ h
      · cases h
      · exact hni h
  | case7 fuel k s id heog buf hsp hdec =>
    simp only [gen_loop_stream, heog, hsp, hdec, if_true, if_false,
      Bool.false_eq_true]
    constructor
    · intro h
      cases h
    · intro _
      simp only [List.mem_append, List.mem_singleton]
      rintro (h | h)
      · exact cancel_not_mem_shift_events _ h
      · cases h

/-- A list ending in its only occurrence of `GenEvent.cancel` admits no
decomposition with anything after that event. -/
theorem cancel_unique_suffix :
    ∀ (pre' pre suf : List GenEvent), GenEvent.cancel ∉ pre' →
      pre' ++ [GenEvent.cancel] = pre ++ GenEvent.cancel :: suf →
      suf = [] := by
  intro pre'
  induction pre' with
  | nil =>
    intro pre suf _ h
    cases pre with
    | nil => simpa using h.symm
    | cons x xs =>
      have := congrArg List.length h
      simp at this
  | cons a rest ih =>
    intro pre suf hna h
    cases pre with
    | nil =>
      rw [List.nil_append, List.cons_append] at h
      injection h with h1 h2
      exact absurd (h1 ▸ List.mem_cons_self a rest) hna
    | cons x xs =>
      rw [List.cons_append, List.cons_append] at h
      injection h with h1 h2
      exact ih xs suf (fun hm => hna (List.mem_cons_of_mem a hm)) h2

/-- C7: if the streaming consumer signals cancellation, the loop's event
trace ends at the cancellation — no decode call (hence no cursor advance,
both being evented) occurs after it — and the run's terminal reason is
`cancelled`, a clean stop distinct from a failure. -/
theorem C7_cancellation (ctx_size : Int) (g : GenOracles)
    (cancel : Nat → Bool) (fuel k : Nat) (s : StreamState)
    (pre suf : List GenEvent)
    (h : (gen_loop_stream ctx_size g cancel fuel k s).2.2
        = pre ++ GenEvent.cancel :: suf) :
    suf = []
    ∧ (gen_loop_stream ctx_size g cancel fuel k s).2.1 = .cancelled := by
  have hshape := gen_loop_stream_cancel_shape ctx_size g cancel fuel k s
  rcases eq_or_ne (gen_loop_stream ctx_size g cancel fuel k s).2.1
      StopReason.cancelled with hr | hr
  · obtain ⟨pre', hpre, hnp⟩ := hshape.1 hr
    refine ⟨cancel_unique_suffix pre' pre suf hnp ?_, hr⟩
    rw [← hpre, ← h]
  · have hmem : GenEvent.cancel
        ∈ (gen_loop_stream ctx_size g cancel fuel k s).2.2 := by
      rw [h]
      simp
    exact absurd hmem (hshape.2 hr)

/-- Witness for `C7_cancellation`: the consumer cancels on the very first
chunk; the trace is exactly one emit followed by the cancel. -/
theorem C7_cancellation_witness :
    (([] : List GenEvent) = []
      ∧ (gen_loop_stream 16 oracle0 (fun j => decide (j = 0)) 3 0
          ⟨⟨[0], 1, 0⟩, [], []⟩).2.1 = .cancelled) :=
  C7_cancellation 16 oracle0 (fun j => decide (j = 0)) 3 0
    ⟨⟨[0], 1, 0⟩, [], []⟩ [GenEvent.emit [0x41]] [] (by decide)

/-! ### C8: decode failure stops the loop, partial output is returned -/

theorem flatten_range_shift {α : Type} (h : Nat → List α) (n : Nat) :
    h 0 ++ ((List.range n).map (fun j => h (j + 1))).flatten
      = ((List.range (n + 1)).map h).flatten := by
  conv_rhs => rw [List.range_succ_eq_map]
  simp only [List.map_cons, List.flatten_cons, List.map_map]
  rfl

/-- If the single-token decode at iteration `kf` (counting from the loop
entry at `i`) fails, with no earlier stop, the synchronous loop returns
`decodeFailed` and its accumulated result is exactly the fragments of the
sampled tokens up to and including iteration `kf` (the failing token's
fragment was appended before the decode attempt, line 262 vs 266). -/
theorem gen_loop_sync_decode_fail (ctx_size : Int) (g : GenOracles) :
    ∀ (kf : Nat), ∀ (fuel i : Nat) (s : SyncState), kf < fuel →
      (∀ j, j ≤ kf → g.eog (g.sample (i + j)) = false) →
      (∀ j, j < kf → g.decode_ok (i + j) = true) →
      g.decode_ok (i + kf) = false →
      (gen_loop_sync ctx_size g fuel i s).2 = .decodeFailed
      ∧ (gen_loop_sync ctx_size g fuel i s).1.result
        = s.result ++ ((List.range (kf + 1)).map
            (fun j => g.piece (g.sample (i + j)))).flatten := by
  intro kf
  induction kf with
  | zero =>
    intro fuel i s hf he hd hkf
    cases fuel with
    | zero => omega
    | succ fuel =>
      have he0 : g.eog (g.sample (i + 0)) = false := he 0 (le_refl 0)
      rw [Nat.add_zero] at he0 hkf
      simp only [gen_loop_sync, he0, hkf, Bool.false_eq_true, if_false]
      refine ⟨trivial, ?_⟩
      simp [List.range_succ]
  | succ kf ih =>
    intro fuel i s hf he hd hkf
    cases fuel with
    | zero => omega
    | succ fuel =>
      have he0 : g.eog (g.sample (i + 0)) = false := he 0 (by omega)
      rw [Nat.add_zero] at he0
      have hd0 : g.decode_ok i = true := by
        have h := hd 0 (by omega)
        rwa [Nat.add_zero] at h
      simp only [gen_loop_sync, he0, hd0, Bool.false_eq_true, if_false,
        if_true]
      have ih' := ih fuel (i + 1)
        ⟨decode_one (maybe_shift ctx_size s.ctx),
          s.result ++ g.piece (g.sample i)⟩
        (by omega)
        (fun j hj => by
          have h := he (j + 1) (by omega)
          rwa [show i + (j + 1) = i + 1 + j by omega] at h)
        (fun j hj => by
          have h := hd (j + 1) (by omega)
          rwa [show i + (j + 1) = i + 1 + j by omega] at h)
        (by
          have h := hkf
          rwa [show i + (kf + 1) = i + 1 + kf by omega] at h)
      refine ⟨ih'.1, ?_⟩
      rw [ih'.2]
      show s.result ++ g.piece (g.sample i) ++ _ = _
      rw [List.append_assoc]
      congr 1
      rw [show (List.range (kf + 1)).map (fun j => g.piece (g.sample (i + 1 + j)))
          = (List.range (kf + 1)).map (fun j => g.piece (g.sample (i + (j + 1))))
        from List.map_congr_left
          (fun j _ => by rw [show i + 1 + j = i + (j + 1) by omega])]
      exact flatten_range_shift (fun j => g.piece (g.sample (i + j))) (kf + 1)

/-- C8: a decode failure at generation step `kf` of a synchronous request
stops the loop at once with the fragments of tokens `0..kf` accumulated;
`nativeGenerate` then surfaces exactly that partial output (through the
encoding guard); and a failure while processing the prompt instead yields
the explicit error string. -/
theorem C8_decode_failure (ctx_size : Int) (g : GenOracles)
    (maxTokens kf : Nat) (s : SyncState) (st : GlobalState)
    (tk : String → List Int) (p : String) (toks : List Int)
    (hk : kf < maxTokens)
    (he : ∀ j, j ≤ kf → g.eog (g.sample j) = false)
    (hd : ∀ j, j < kf → g.decode_ok j = true)
    (hkf : g.decode_ok kf = false)
    (hld : st.loaded = true)
    (htr : truncate_prompt (tk p) ctx_size (maxTokens : Int) = some toks) :
    ((gen_loop_sync ctx_size g maxTokens 0 s).2 = .decodeFailed
      ∧ (gen_loop_sync ctx_size g maxTokens 0 s).1.result
        = s.result ++ ((List.range (kf + 1)).map
            (fun j => g.piece (g.sample j))).flatten)
    ∧ (nativeGenerate st tk p (maxTokens : Int) ctx_size g true).2
        = .ok (trim_utf8 ((gen_loop_sync ctx_size g maxTokens 0
            { ctx := after_prompt toks.length, result := [] }).1.result))
    ∧ (nativeGenerate st tk p (maxTokens : Int) ctx_size g false)
        = (reset_chat_state st, .error "[Error: Failed to process prompt]") := by
  refine ⟨?_, ?_, ?_⟩
  · have h := gen_loop_sync_decode_fail ctx_size g kf maxTokens 0 s hk
      (fun j hj => by simpa using he j hj)
      (fun j hj => by simpa using hd j hj)
      (by simpa using hkf)
    simpa using h
  · simp only [nativeGenerate, hld, Bool.not_true, Bool.false_eq_true,
      if_false, htr, Bool.not_false, Int.toNat_natCast]
  · simp only [nativeGenerate, hld, Bool.not_true, Bool.false_eq_true,
      if_false, htr, Bool.not_false, if_true]

/-- The oracle of the C8 witness: every piece is `A`, decode succeeds only
at iteration 0 and fails at iteration 1. -/
def c8_oracle : GenOracles :=
  { sample := fun k => (k : Int), eog := fun _ => false,
    piece := fun _ => [0x41], decode_ok := fun j => decide (j = 0) }

theorem C8_decode_failure_witness :
    ((gen_loop_sync 16 c8_oracle 3 0 ⟨⟨[], 0, 0⟩, []⟩).2 = .decodeFailed
      ∧ (gen_loop_sync 16 c8_oracle 3 0 ⟨⟨[], 0, 0⟩, []⟩).1.result
        = [] ++ ((List.range (1 + 1)).map
            (fun j => c8_oracle.piece (c8_oracle.sample j))).flatten)
    ∧ (nativeGenerate ⟨true, 0, 0, [], []⟩ (fun _ => [1]) "p" ((3 : Nat) : Int)
        16 c8_oracle true).2
        = .ok (trim_utf8 ((gen_loop_sync 16 c8_oracle 3 0
            { ctx := after_prompt ([1] : List Int).length, result := [] }).1.result))
    ∧ (nativeGenerate ⟨true, 0, 0, [], []⟩ (fun _ => [1]) "p" ((3 : Nat) : Int)
        16 c8_oracle false)
        = (reset_chat_state ⟨true, 0, 0, [], []⟩,
            .error "[Error: Failed to process prompt]") :=
  C8_decode_failure 16 c8_oracle 3 1 ⟨⟨[], 0, 0⟩, []⟩ ⟨true, 0, 0, [], []⟩
    (fun _ => [1]) "p" [1] (by decide) (by decide) (by decide) (by decide)
    (by decide) (by decide)

/-- C9 (amended): requests made before a model is loaded return
immediately with the session state untouched; the synchronous generate
surfaces the explicit error string, streaming generate delivers no chunks,
and tokenize returns an empty token sequence (neither of the latter two
carries an explicit error value); tokenize never mutates session state in
any case. -/
theorem C9_unloaded_requests (st : GlobalState) (h : st.loaded = false) :
    (∀ tk p maxT ctx g pok,
      nativeGenerate st tk p maxT ctx g pok
        = (st, .error "[Error: Model not loaded]"))
    ∧ (∀ tk p maxT ctx g cancel pok,
      nativeGenerateStream st tk p maxT ctx g cancel pok = (st, some []))
    ∧ (∀ tk t, nativeTokenize st tk t = (st, []))
    ∧ (∀ (st2 : GlobalState) tk t, (nativeTokenize st2 tk t).1 = st2) := by
  refine ⟨?_, ?_, ?_, ?_⟩
  · intro tk p maxT ctx g pok
    simp [nativeGenerate, h]
  · intro tk p maxT ctx g cancel pok
    simp [nativeGenerateStream, h]
  · intro tk t
    simp [nativeTokenize, h]
  · intro st2 tk t
    by_cases h2 : st2.loaded <;> simp [nativeTokenize, h2]

theorem C9_unloaded_requests_witness :
    ((⟨false, 3, 1, ["sys"], [0, 1, 2]⟩ : GlobalState).loaded = false)
    ∧ nativeGenerate ⟨false, 3, 1, ["sys"], [0, 1, 2]⟩ (fun _ => [1]) "p" 5 16 oracle0 true
        = (⟨false, 3, 1, ["sys"], [0, 1, 2]⟩, .error "[Error: Model not loaded]")
    ∧ nativeGenerateStream ⟨false, 3, 1, ["sys"], [0, 1, 2]⟩ (fun _ => [1]) "p" 5 16
        oracle0 (fun _ => false) true
        = (⟨false, 3, 1, ["sys"], [0, 1, 2]⟩, some [])
    ∧ nativeTokenize ⟨false, 3, 1, ["sys"], [0, 1, 2]⟩ (fun _ => [7, 8]) "t"
        = (⟨false, 3, 1, ["sys"], [0, 1, 2]⟩, [])
    ∧ (nativeTokenize ⟨true, 3, 1, ["sys"], [0, 1, 2]⟩ (fun _ => [7, 8]) "t").1
        = ⟨true, 3, 1, ["sys"], [0, 1, 2]⟩ :=
  ⟨rfl,
   (C9_unloaded_requests ⟨false, 3, 1, ["sys"], [0, 1, 2]⟩ rfl).1
     (fun _ => [1]) "p" 5 16 oracle0 true,
   (C9_unloaded_requests ⟨false, 3, 1, ["sys"], [0, 1, 2]⟩ rfl).2.1
     (fun _ => [1]) "p" 5 16 oracle0 (fun _ => false) true,
   (C9_unloaded_requests ⟨false, 3, 1, ["sys"], [0, 1, 2]⟩ rfl).2.2.1
     (fun _ => [7, 8]) "t",
   (C9_unloaded_requests ⟨false, 3, 1, ["sys"], [0, 1, 2]⟩ rfl).2.2.2
     ⟨true, 3, 1, ["sys"], [0, 1, 2]⟩ (fun _ => [7, 8]) "t"⟩

/-- C9 as stated is false: an unloaded `tokenize` and an unloaded
streaming request do not surface any `ModelUnavailable` error value — the
caller-visible outputs are an empty token array and an empty chunk
sequence, each identical to the output of a successful request on a
loaded session (tokenizer returning no tokens, and a zero-budget
generation), so nothing distinguishes the failure. -/
theorem C9_counterexample :
    (nativeTokenize ⟨false, 0, 0, [], []⟩ (fun _ => []) "hello").2
      = (nativeTokenize ⟨true, 0, 0, [], []⟩ (fun _ => []) "hello").2
    ∧ (nativeGenerateStream ⟨false, 0, 0, [], []⟩ (fun _ => [1]) "hello" 0 16
        oracle0 (fun _ => false) true).2
      = (nativeGenerateStream ⟨true, 0, 0, [], []⟩ (fun _ => [1]) "hello" 0 16
        oracle0 (fun _ => false) true).2 :=
  ⟨rfl, rfl⟩

/-- C10: the truncation bound can be negative at the public interface —
with capacity 4096 and `maxTokens = 4093` the bound is `−1`, every
(even one-token) prompt takes the truncation branch, and
`std::vector::resize` receives `(size_t)(−1)`; the throw/abort is modelled
as `none` / `.abort`.  There is no guard making this branch well-behaved
or unreachable. -/
theorem C10_negative_resize :
    truncate_prompt [1] 4096 4093 = none
    ∧ (nativeGenerate ⟨true, 0, 0, [], []⟩ (fun _ => [1]) "p" 4093 4096
        oracle0 true).2 = .abort :=
  ⟨rfl, rfl⟩

end UnDios
